import Mathlib

/-!
# Verification of the channeljs publish/subscribe channel

Shallow embedding of `src/index.ts` (classes `Channel`, `Tx`, `Rx`).

Modelling choices, all taken from the source:

* A message identifier (JS string/number/symbol key) is a `Nat`; a listener is
  identified by its function-object reference, modelled as a `Nat` id paired
  with its code (`Body`). JS compares listeners by reference identity, which is
  id equality here.
* A JS `Set` of listeners is a `List` of slots in insertion order; `delete`
  replaces the slot by `none` (a tombstone) and `add` appends when the id is
  not live, exactly the observable behaviour of the JS `Set` entry list under
  an in-progress `for..of` iteration: deleted entries are skipped, surviving
  entries keep their position.
* The JS `Map` registry is an insertion-ordered association list.
* A listener's code is a `Body`: it can record its own invocation in a trace
  (`emit`), call `rx.off` (`offAct`, which is what the one-shot trampoline
  does), resolve a weak reference (`deref`, the weak trampoline), or throw
  (`throwE`).  This fragment covers every callback the library itself builds
  and the callbacks the claims quantify over; it contains no re-subscription
  during a send, hence the length of a listener set is invariant while
  `Tx.send` iterates, and iterating indices `0..length-1` while re-reading the
  registry at each step is exactly the JS `for (const cb of listeners)` loop.
* `tx.send` returns `Except Nat Bool`: `.error e` models a listener exception
  propagating out of the synchronous `for` loop to the caller of `send`.
* `tx.send_async` runs `resolve(this.send(...))` inside a `setTimeout`
  callback; if `send` throws there, `resolve` is never called and the promise
  never settles, so its eventual outcome is `FOutcome.pending`.
-/

namespace ChannelJS

/-- Decidable equality for `Except`, used to evaluate concrete runs. -/
instance {ε α : Type} [DecidableEq ε] [DecidableEq α] : DecidableEq (Except ε α) := fun x y =>
  match x, y with
  | Except.ok a, Except.ok b =>
      if h : a = b then isTrue (congrArg Except.ok h)
      else isFalse (fun hc => h (Except.ok.inj hc))
  | Except.error a, Except.error b =>
      if h : a = b then isTrue (congrArg Except.error h)
      else isFalse (fun hc => h (Except.error.inj hc))
  | Except.ok _, Except.error _ => isFalse (fun hc => Except.noConfusion hc)
  | Except.error _, Except.ok _ => isFalse (fun hc => Except.noConfusion hc)

/-- Message identifiers (JS string/number/symbol map keys). -/
abbrev Msg := Nat

/-- Function-object identity of a listener (JS reference equality). -/
abbrev LId := Nat

/-- Positional arguments of a `send` (`...args`). -/
abbrev Args := List Nat

/-- Code of a listener callback, as invoked by `Tx.send`. -/
inductive Body where
  | done : Body
  | emit (uid : Nat) (k : Body) : Body
  | offAct (m : Msg) (t : LId) (k : Body) : Body
  | deref (r : Nat) (live dead : Body) : Body
  | throwE (e : Nat) : Body
deriving Repr, DecidableEq

/-- A listener: its reference identity together with its code. -/
abbrev Listener := LId × Body

/-- A JS `Set` of listeners: insertion-ordered slots, `none` = deleted slot. -/
abbrev SetData := List (Option Listener)

/-- Does this slot hold a live listener with reference `l`? -/
def lidIs (l : LId) : Option Listener → Bool
  | some p => decide (p.1 = l)
  | none => false

/-- JS `Set.has` (by reference identity). -/
def setMem (s : SetData) (l : LId) : Bool := s.any (lidIs l)

/-- JS `Set.add`: no-op when the reference is already present, else append. -/
def setAdd (s : SetData) (L : Listener) : SetData :=
  if setMem s L.1 then s else s ++ [some L]

/-- JS `Set.delete`: tombstone the (unique) slot holding reference `l`. -/
def setOff : SetData → LId → SetData
  | [], _ => []
  | slot :: rest, l => if lidIs l slot then none :: rest else slot :: setOff rest l

/-- JS `Set.size`: number of live slots. -/
def setSize (s : SetData) : Nat := s.countP (fun slot => slot.isSome)

/-- Slot at iteration position `i` (out of range reads as a deleted slot). -/
def slotAt : SetData → Nat → Option Listener
  | [], _ => none
  | slot :: _, 0 => slot
  | _ :: rest, i + 1 => slotAt rest i

/-- JS `Map.get` over an insertion-ordered association list. -/
def mapGet {α : Type} : List (Nat × α) → Nat → Option α
  | [], _ => none
  | (k', v) :: rest, k => if k' = k then some v else mapGet rest k

/-- JS `Map.set`: overwrite in place, or append a new entry. -/
def mapSet {α : Type} : List (Nat × α) → Nat → α → List (Nat × α)
  | [], k, v => [(k, v)]
  | (k', v') :: rest, k, v =>
      if k' = k then (k, v) :: rest else (k', v') :: mapSet rest k v

/-- JS `Map.delete`. -/
def mapDel {α : Type} : List (Nat × α) → Nat → List (Nat × α)
  | [], _ => []
  | (k', v') :: rest, k => if k' = k then rest else (k', v') :: mapDel rest k

/-- The subscriber registry: `Map<Message, Set<Listener>>`. -/
abbrev Reg := List (Msg × SetData)

/-- Observable state of one channel: its registry plus the trace of user
listener invocations `(listener uid, args)` performed so far. -/
structure St where
  reg : Reg
  trace : List (Nat × Args)
deriving Repr, DecidableEq

/-- `this.#subscribers.get(msg)?.delete(listener)` — the registry mutation
performed by `Rx.off` (and by the trampolines calling it). -/
def regOff (r : Reg) (m : Msg) (l : LId) : Reg :=
  match mapGet r m with
  | none => r
  | some s => mapSet r m (setOff s l)

/-- Run a listener body. `isAlive` resolves weak references. Returns the new
state and `some e` when the body threw exception `e`. -/
def invoke (isAlive : Nat → Bool) (args : Args) : Body → St → St × Option Nat
  | .done, st => (st, none)
  | .emit uid k, st => invoke isAlive args k { st with trace := st.trace ++ [(uid, args)] }
  | .offAct m t k, st => invoke isAlive args k { st with reg := regOff st.reg m t }
  | .deref r lv dd, st =>
      if isAlive r then invoke isAlive args lv st else invoke isAlive args dd st
  | .throwE e, st => (st, some e)

/-- The `for (const cb of listeners) cb(...args)` loop of `Tx.send`: visit the
slots of `msg`'s set at positions `i, i+1, ...`, re-reading the registry at
each step (the set is mutated in place by trampolines), skipping deleted
slots, and aborting when a listener throws.  The countdown `k` is the set's
length, which no body of the fragment can change. -/
def sendGo (isAlive : Nat → Bool) (m : Msg) (args : Args) : Nat → Nat → St → St × Option Nat
  | 0, _, st => (st, none)
  | k + 1, i, st =>
      match slotAt ((mapGet st.reg m).getD []) i with
      | none => sendGo isAlive m args k (i + 1) st
      | some L =>
          match invoke isAlive args L.2 st with
          | (st', none) => sendGo isAlive m args k (i + 1) st'
          | (st', some e) => (st', some e)

/-- `Tx.send` (src/index.ts): look the set up; absent or empty yields `false`;
otherwise run every listener and yield `true`, or propagate a thrown
exception. -/
def Tx.send (isAlive : Nat → Bool) (st : St) (m : Msg) (args : Args) : St × Except Nat Bool :=
  match mapGet st.reg m with
  | none => (st, Except.ok false)
  | some s =>
      if 0 < setSize s then
        match sendGo isAlive m args s.length 0 st with
        | (st', none) => (st', Except.ok true)
        | (st', some e) => (st', Except.error e)
      else (st, Except.ok false)

/-- Eventual fate of the promise returned by `Tx.send_async`. -/
inductive FOutcome where
  | resolved (b : Bool) : FOutcome
  | rejected (e : Nat) : FOutcome
  | pending : FOutcome
deriving Repr, DecidableEq

/-- `Tx.send_async` (src/index.ts): `new Promise(resolve => setTimeout(() =>
resolve(this.send(msg, ...args)), 0))`.  The deferred body calls `send`; if a
listener throws there, the exception escapes to the host scheduler and
`resolve` is never reached, so the promise never settles (`pending`).  The
executor has no `reject`, so no outcome is ever `rejected`. -/
def Tx.send_async (isAlive : Nat → Bool) (st : St) (m : Msg) (args : Args) : St × FOutcome :=
  match Tx.send isAlive st m args with
  | (st', Except.ok b) => (st', FOutcome.resolved b)
  | (st', Except.error _) => (st', FOutcome.pending)

/-- `Rx.on` (src/index.ts): add to the existing set, or store a fresh
singleton set; return the provided listener. -/
def Rx.on (st : St) (m : Msg) (L : Listener) : St × Listener :=
  match mapGet st.reg m with
  | some s => ({ st with reg := mapSet st.reg m (setAdd s L) }, L)
  | none => ({ st with reg := mapSet st.reg m [some L] }, L)

/-- `Rx.off` (src/index.ts): `!!this.#subscribers.get(msg)?.delete(listener)`.
Deletes only the listener's slot; the message entry always survives. -/
def Rx.off (st : St) (m : Msg) (l : LId) : St × Bool :=
  match mapGet st.reg m with
  | none => (st, false)
  | some s => ({ st with reg := mapSet st.reg m (setOff s l) }, setMem s l)

/-- `Rx.once` (src/index.ts): `return this.on(msg, function f(...args) \x7b
self.off(msg, f); listener(...args); \x7d)`.  The fresh closure `f` is the
trampoline, with reference identity `fid`; its body unsubscribes itself and
then runs the caller's listener.  Note the value produced is whatever `on`
returns, i.e. the trampoline `f` itself. -/
def Rx.once (st : St) (m : Msg) (L : Listener) (fid : LId) : St × Listener :=
  Rx.on st m (fid, Body.offAct m fid L.2)

/-- The value returned to the caller of `Rx.onweak`: either the listener
object itself (a strong reference) or the `WeakRef` wrapper. -/
inductive ORet where
  | strongL (L : Listener) : ORet
  | weakRef (r : Nat) : ORet
deriving Repr, DecidableEq

/-- Body of the weak trampoline `f`: resolve the `WeakRef`; if alive, forward
the call to the listener, else `self.off(msg, f)`. -/
def weakBody (m : Msg) (fid : LId) (r : Nat) (lb : Body) : Body :=
  Body.deref r lb (Body.offAct m fid Body.done)

/-- `Rx.onweak` (src/index.ts): create `ref = new WeakRef(listener)` (weak
cell `r`), register the trampoline, then `return listener;` — the current
source returns the listener itself, a strong reference, although its own doc
comment promises the `WeakRef`. -/
def Rx.onweak (st : St) (m : Msg) (L : Listener) (r : Nat) (fid : LId) : St × ORet :=
  ((Rx.on st m (fid, weakBody m fid r L.2)).1, ORet.strongL L)

/-- The earlier variant of `Rx.onweak` shipped in dist (and the first unnamed
source variant), identical except for its final `return ref;`. -/
def Rx.onweakV1 (st : St) (m : Msg) (L : Listener) (r : Nat) (fid : LId) : St × ORet :=
  ((Rx.on st m (fid, weakBody m fid r L.2)).1, ORet.weakRef r)

/-- `Rx.off_all` (variant source): `this.#subscribers.delete(msg)`. -/
def Rx.off_all (st : St) (m : Msg) : St × Bool :=
  ({ st with reg := mapDel st.reg m }, (mapGet st.reg m).isSome)

/-- `Channel.messages` (variant source): `Array.from(this.#subscribers.keys())`. -/
def Channel.messages (st : St) : List Msg := st.reg.map Prod.fst

/-- `Channel.clear`: `this.#subscribers.clear()`. -/
def Channel.clear (st : St) : St := { st with reg := [] }

/-- Host objects of the static association table. -/
abbrev Host := Nat

/-- The static `Channel.#channels` table; each associated channel is observed
through its registry. -/
abbrev ChTable := List (Host × Reg)

/-- Shortcut instance: synthesis of the componentwise instance exceeds the
default search size on this deeply nested type. -/
instance : DecidableEq (Host × Reg) := instDecidableEqProd

/-- Shortcut instance for tables, for the same reason. -/
instance : DecidableEq ChTable := instDecidableEqList

/-- `Channel.has` (src/index.ts): `this.#channels.has(target)`. -/
def Channel.has (t : ChTable) (h : Host) : Bool := (mapGet t h).isSome

/-- `Channel.get` (src/index.ts): `this.#channels.get(target)!.#subscribers`.
When the host has no association, `get` yields `undefined` and the `!`
field access throws a `TypeError`, modelled as `Except.error ()`. -/
def Channel.get (t : ChTable) (h : Host) : Except Unit Reg :=
  match mapGet t h with
  | some r => Except.ok r
  | none => Except.error ()

/-- `Channel.add` (src/index.ts): `this.#channels.set(target, new Channel)` —
unconditionally associates a fresh channel (empty registry). -/
def Channel.add (t : ChTable) (h : Host) : ChTable := mapSet t h []

/-- A purely observational listener body: a chain of `emit`s.  This is the
shape of an ordinary user callback that does not touch the registry. -/
def pureB : Body → Bool
  | .done => true
  | .emit _ k => pureB k
  | _ => false

/-- The user-listener invocations a body performs (for pure bodies and
one-shot trampolines around them). -/
def emitsOf : Body → List Nat
  | .done => []
  | .emit u k => u :: emitsOf k
  | .offAct _ _ k => emitsOf k
  | .deref _ _ _ => []
  | .throwE _ => []

/-- Invocations recorded when the listener in this slot runs. -/
def slotEmits : Option Listener → List Nat
  | none => []
  | some p => emitsOf p.2

/-- All invocations of one pass over a set, in iteration order. -/
def setEmits : SetData → List Nat
  | [] => []
  | slot :: rest => slotEmits slot ++ setEmits rest

/-- A slot `Tx.send` may encounter in the self-removal fragment: deleted,
purely observational, or a one-shot trampoline for this very message wrapping
a purely observational listener. -/
def slotOkB (m : Msg) : Option Listener → Bool
  | none => true
  | some (l, b) =>
      pureB b ||
        (match b with
         | .offAct m' t k => decide (m' = m) && decide (t = l) && pureB k
         | _ => false)

/-- Effect of one visit on a slot: a fired one-shot trampoline is tombstoned,
anything else survives unchanged. -/
def fireSlot (m : Msg) : Option Listener → Option Listener
  | none => none
  | some (l, b) =>
      match b with
      | .offAct m' t _ => if m' = m ∧ t = l then none else some (l, b)
      | _ => some (l, b)

/-- Live reference identities of a set, in slot order. -/
def liveLids (s : SetData) : List LId := s.filterMap (fun slot => slot.map Prod.fst)

/-! ## Association-list (JS `Map`) lemmas -/

@[simp]
theorem mapGet_mapSet_self {α : Type} (t : List (Nat × α)) (k : Nat) (v : α) :
    mapGet (mapSet t k v) k = some v := by
  induction t with
  | nil => simp [mapGet, mapSet]
  | cons hd tl ih =>
      obtain ⟨k', v'⟩ := hd
      by_cases hk : k' = k
      · simp [mapGet, mapSet, hk]
      · simp [mapGet, mapSet, hk, ih]

@[simp]
theorem mapSet_mapSet_self {α : Type} (t : List (Nat × α)) (k : Nat) (v w : α) :
    mapSet (mapSet t k v) k w = mapSet t k w := by
  induction t with
  | nil => simp [mapSet]
  | cons hd tl ih =>
      obtain ⟨k', v'⟩ := hd
      by_cases hk : k' = k
      · simp [mapSet, hk]
      · simp [mapSet, hk, ih]

theorem mapSet_eq_of_get {α : Type} {t : List (Nat × α)} {k : Nat} {v : α}
    (h : mapGet t k = some v) : mapSet t k v = t := by
  induction t with
  | nil => simp [mapGet] at h
  | cons hd tl ih =>
      obtain ⟨k', v'⟩ := hd
      by_cases hk : k' = k
      · subst hk
        simp [mapGet] at h
        simp [mapSet, h]
      · simp [mapGet, hk] at h
        simp [mapSet, hk, ih h]

theorem mapKeys_mapSet_of_get {α : Type} {t : List (Nat × α)} {k : Nat} {v : α}
    (w : α) (h : mapGet t k = some v) :
    (mapSet t k w).map Prod.fst = t.map Prod.fst := by
  induction t with
  | nil => simp [mapGet] at h
  | cons hd tl ih =>
      obtain ⟨k', v'⟩ := hd
      by_cases hk : k' = k
      · subst hk
        simp [mapSet]
      · simp [mapGet, hk] at h
        simp [mapSet, hk, ih h]

/-! ## Set (`Set<Listener>`) lemmas -/

@[simp]
theorem lidIs_self (l : LId) (b : Body) : lidIs l (some (l, b)) = true := by
  simp [lidIs]

theorem setMem_setAdd (s : SetData) (L : Listener) : setMem (setAdd s L) L.1 = true := by
  by_cases h : setMem s L.1 = true
  · simp [setAdd, h]
  · rw [setAdd, if_neg h]
    simp [setMem, List.any_append, lidIs]

theorem setAdd_of_mem {s : SetData} {L : Listener} (h : setMem s L.1 = true) :
    setAdd s L = s := by
  simp [setAdd, h]

theorem setOff_append {A : SetData} {l : LId} (slot : Option Listener) (B : SetData)
    (hA : ∀ sl ∈ A, lidIs l sl = false) (hs : lidIs l slot = true) :
    setOff (A ++ slot :: B) l = A ++ none :: B := by
  induction A with
  | nil => simp [setOff, hs]
  | cons a A ih =>
      have ha : lidIs l a = false := hA a (by simp)
      have ih' := ih (fun sl hsl => hA sl (by simp [hsl]))
      simp [setOff, ha, ih']

/-! ## `liveLids` and `fireSlot` lemmas -/

theorem liveLids_append (A B : SetData) :
    liveLids (A ++ B) = liveLids A ++ liveLids B := by
  simp [liveLids]

@[simp]
theorem liveLids_cons_some (l : LId) (b : Body) (s : SetData) :
    liveLids (some (l, b) :: s) = l :: liveLids s := by
  simp [liveLids]

@[simp]
theorem liveLids_cons_none (s : SetData) : liveLids (none :: s) = liveLids s := by
  simp [liveLids]

@[simp]
theorem liveLids_nil : liveLids ([] : SetData) = [] := rfl

theorem mem_liveLids_of {s : SetData} {sl : Option Listener} {l : LId}
    (hmem : sl ∈ s) (hl : lidIs l sl = true) : l ∈ liveLids s := by
  match sl with
  | none => simp [lidIs] at hl
  | some p =>
      have : p.1 = l := by simpa [lidIs] using hl
      subst this
      exact List.mem_filterMap.mpr ⟨some p, hmem, rfl⟩

theorem fireSlot_none_or_eq (m : Msg) (sl : Option Listener) :
    fireSlot m sl = none ∨ fireSlot m sl = sl := by
  match sl with
  | none => exact Or.inl rfl
  | some (l, b) =>
      cases b with
      | offAct m' t k =>
          by_cases h : m' = m ∧ t = l
          · exact Or.inl (by simp [fireSlot, h])
          · exact Or.inr (by simp [fireSlot, h])
      | done => exact Or.inr rfl
      | emit u k => exact Or.inr rfl
      | deref r a d => exact Or.inr rfl
      | throwE e => exact Or.inr rfl

theorem fireSlot_of_pure {m : Msg} {l : LId} {b : Body} (h : pureB b = true) :
    fireSlot m (some (l, b)) = some (l, b) := by
  cases b with
  | done => rfl
  | emit u k => rfl
  | offAct m' t k => simp [pureB] at h
  | deref r a d => simp [pureB] at h
  | throwE e => simp [pureB] at h

@[simp]
theorem fireSlot_selftramp (m : Msg) (l : LId) (k : Body) :
    fireSlot m (some (l, Body.offAct m l k)) = none := by
  simp [fireSlot]

/-! ## Pure-body invocation -/

theorem invoke_pure (isAlive : Nat → Bool) (args : Args) :
    ∀ (b : Body) (st : St), pureB b = true →
      invoke isAlive args b st =
        ({ st with trace := st.trace ++ (emitsOf b).map (fun u => (u, args)) }, none) := by
  intro b
  induction b with
  | done => intro st _; simp [invoke, emitsOf]
  | emit u k ih =>
      intro st hp
      have hk : pureB k = true := by simpa [pureB] using hp
      simp [invoke, emitsOf, ih _ hk, List.append_assoc]
  | offAct m t k ih => intro st hp; simp [pureB] at hp
  | deref r a d iha ihd => intro st hp; simp [pureB] at hp
  | throwE e => intro st hp; simp [pureB] at hp

/-! ## The `Tx.send` iteration over live sets -/

theorem slotAt_append_length (A : SetData) (slot : Option Listener) (B : SetData) :
    slotAt (A ++ slot :: B) A.length = slot := by
  induction A with
  | nil => rfl
  | cons a A ih =>
      simp only [List.cons_append, List.length_cons, slotAt]
      exact ih

/-- Shape analysis of an admissible slot. -/
theorem slotOkB_elim {m : Msg} {l : LId} {b : Body}
    (h : slotOkB m (some (l, b)) = true) :
    pureB b = true ∨ ∃ k, b = Body.offAct m l k ∧ pureB k = true := by
  cases b with
  | done => exact Or.inl rfl
  | emit u k => exact Or.inl (by simpa [slotOkB] using h)
  | offAct m' t k =>
      have h' : (decide (m' = m) && decide (t = l) && pureB k) = true := by
        simpa [slotOkB, pureB] using h
      simp only [Bool.and_eq_true, decide_eq_true_eq] at h'
      obtain ⟨⟨hm, ht⟩, hk⟩ := h'
      subst hm; subst ht
      exact Or.inr ⟨k, rfl, hk⟩
  | deref r a d => simp [slotOkB, pureB] at h
  | throwE e => simp [slotOkB, pureB] at h

/-- Core correctness of the `for (const cb of listeners)` loop: when every
slot of the current suffix is deleted, purely observational, or a one-shot
self-removing trampoline (over a set whose live references are pairwise
distinct — an invariant of JS `Set`s), the loop visits every slot of the
suffix exactly once in order, records exactly its invocations, tombstones
exactly the fired trampolines, and never throws. -/
theorem sendGo_fire (isAlive : Nat → Bool) (m : Msg) (args : Args) :
    ∀ (post pre : SetData) (st : St),
      (∀ slot ∈ pre ++ post, slotOkB m slot = true) →
      (liveLids (pre ++ post)).Nodup →
      mapGet st.reg m = some (pre.map (fireSlot m) ++ post) →
      sendGo isAlive m args post.length pre.length st =
        ({ reg := mapSet st.reg m ((pre ++ post).map (fireSlot m)),
           trace := st.trace ++ (setEmits post).map (fun u => (u, args)) }, none) := by
  intro post
  induction post with
  | nil =>
      intro pre st hok hnd hget
      have hset : mapSet st.reg m (pre.map (fireSlot m)) = st.reg :=
        mapSet_eq_of_get (by simpa using hget)
      simp [sendGo, hset, setEmits]
  | cons slot rest ih =>
      intro pre st hok hnd hget
      have hassoc : (pre ++ [slot]) ++ rest = pre ++ slot :: rest := by
        simp
      have hok' : ∀ sl ∈ (pre ++ [slot]) ++ rest, slotOkB m sl = true := by
        intro sl hsl
        exact hok sl (hassoc ▸ hsl)
      have hnd' : (liveLids ((pre ++ [slot]) ++ rest)).Nodup := by
        rw [hassoc]; exact hnd
      have hfetch : slotAt ((mapGet st.reg m).getD []) pre.length = slot := by
        rw [hget]
        have h := slotAt_append_length (pre.map (fireSlot m)) slot rest
        simpa using h
      cases slot with
      | none =>
          have hget' : mapGet st.reg m = some ((pre ++ [none]).map (fireSlot m) ++ rest) := by
            have he : (pre ++ [(none : Option Listener)]).map (fireSlot m) ++ rest
                = pre.map (fireSlot m) ++ none :: rest := by
              simp [fireSlot]
            rw [he]; exact hget
          have hrec := ih (pre ++ [none]) st hok' hnd' hget'
          simp only [List.length_append, List.length_cons, List.length_nil] at hrec
          simp only [List.length_cons]
          simp only [sendGo, hfetch]
          rw [hrec, hassoc]
          simp [setEmits, slotEmits]
      | some L =>
          obtain ⟨l, b⟩ := L
          have hokslot : slotOkB m (some (l, b)) = true := hok _ (by simp)
          rcases slotOkB_elim hokslot with hp | ⟨kB, rfl, hpk⟩
          · -- purely observational listener: fires, set unchanged
            have hstep := invoke_pure isAlive args b st hp
            have hget' : mapGet st.reg m
                = some ((pre ++ [some (l, b)]).map (fireSlot m) ++ rest) := by
              have he : (pre ++ [some (l, b)]).map (fireSlot m) ++ rest
                  = pre.map (fireSlot m) ++ some (l, b) :: rest := by
                simp [fireSlot_of_pure hp]
              rw [he]; exact hget
            have hrec := ih (pre ++ [some (l, b)])
              { st with trace := st.trace ++ (emitsOf b).map (fun u => (u, args)) }
              hok' hnd' hget'
            simp only [List.length_append, List.length_cons, List.length_nil] at hrec
            simp only [List.length_cons]
            simp only [sendGo, hfetch, hstep]
            rw [hrec, hassoc]
            simp [setEmits, slotEmits, List.append_assoc]
          · -- one-shot trampoline: removes its own slot, then fires
            have hAfree : ∀ sl ∈ pre.map (fireSlot m), lidIs l sl = false := by
              intro sl hsl
              by_contra hcon
              have hsl' : lidIs l sl = true := by
                cases hmm : lidIs l sl with
                | true => rfl
                | false => exact absurd hmm hcon
              obtain ⟨sl₀, hsl₀, rfl⟩ := List.mem_map.mp hsl
              have hsl0 : lidIs l sl₀ = true := by
                rcases fireSlot_none_or_eq m sl₀ with h | h
                · rw [h] at hsl'; simp [lidIs] at hsl'
                · rwa [h] at hsl'
              have hl : l ∈ liveLids pre := mem_liveLids_of hsl₀ hsl0
              have hnd2 : (liveLids pre ++ l :: liveLids rest).Nodup := by
                have := liveLids_append pre (some (l, Body.offAct m l kB) :: rest)
                rw [this, liveLids_cons_some] at hnd
                exact hnd
              rcases List.nodup_append.mp hnd2 with ⟨-, -, hdisj⟩
              exact hdisj hl (by simp)
            have hcur : setOff (pre.map (fireSlot m) ++ some (l, Body.offAct m l kB) :: rest) l
                = pre.map (fireSlot m) ++ none :: rest :=
              setOff_append _ _ hAfree (by simp)
            have hregOff : regOff st.reg m l
                = mapSet st.reg m (pre.map (fireSlot m) ++ none :: rest) := by
              simp [regOff, hget, hcur]
            have hstep : invoke isAlive args (Body.offAct m l kB) st =
                ({ reg := mapSet st.reg m (pre.map (fireSlot m) ++ none :: rest),
                   trace := st.trace ++ (emitsOf kB).map (fun u => (u, args)) }, none) := by
              simp only [invoke]
              rw [hregOff, invoke_pure isAlive args kB _ hpk]
            have hget' : mapGet (mapSet st.reg m (pre.map (fireSlot m) ++ none :: rest)) m
                = some ((pre ++ [some (l, Body.offAct m l kB)]).map (fireSlot m) ++ rest) := by
              rw [mapGet_mapSet_self]
              have he : (pre ++ [some (l, Body.offAct m l kB)]).map (fireSlot m) ++ rest
                  = pre.map (fireSlot m) ++ none :: rest := by
                simp
              rw [he]
            have hrec := ih (pre ++ [some (l, Body.offAct m l kB)])
              { reg := mapSet st.reg m (pre.map (fireSlot m) ++ none :: rest),
                trace := st.trace ++ (emitsOf kB).map (fun u => (u, args)) }
              hok' hnd' hget'
            simp only [List.length_append, List.length_cons, List.length_nil] at hrec
            simp only [List.length_cons]
            simp only [sendGo, hfetch, hstep]
            rw [hrec, hassoc]
            simp [setEmits, slotEmits, emitsOf, List.append_assoc]

/-- A slot holding an ordinary, purely observational listener (or deleted). -/
def slotPure : Option Listener → Bool
  | none => true
  | some p => pureB p.2

theorem slotOkB_of_slotPure {m : Msg} {sl : Option Listener}
    (h : slotPure sl = true) : slotOkB m sl = true := by
  match sl with
  | none => rfl
  | some (l, b) =>
      have hb : pureB b = true := by simpa [slotPure] using h
      simp [slotOkB, hb]

theorem fireSlot_of_slotPure {m : Msg} {sl : Option Listener}
    (h : slotPure sl = true) : fireSlot m sl = sl := by
  match sl with
  | none => rfl
  | some (l, b) => exact fireSlot_of_pure (by simpa [slotPure] using h)

theorem map_fireSlot_of_slotPure {m : Msg} {s : SetData}
    (h : ∀ sl ∈ s, slotPure sl = true) : s.map (fireSlot m) = s := by
  induction s with
  | nil => rfl
  | cons a s ih =>
      rw [List.map_cons, fireSlot_of_slotPure (h a (by simp)),
        ih (fun sl hsl => h sl (by simp [hsl]))]

theorem setSize_append_some_pos (A : SetData) (p : Listener) (B : SetData) :
    0 < setSize (A ++ some p :: B) := by
  simp [setSize, List.countP_append, List.countP_cons]

/-- `Tx.send` on a non-empty admissible set: every slot fires exactly once in
order, fired one-shot trampolines are tombstoned, the result is `true`. -/
theorem send_fire_aux (isAlive : Nat → Bool) (st : St) (m : Msg) (args : Args) (s : SetData)
    (hget : mapGet st.reg m = some s)
    (hok : ∀ slot ∈ s, slotOkB m slot = true)
    (hnd : (liveLids s).Nodup)
    (hsz : 0 < setSize s) :
    Tx.send isAlive st m args =
      ({ reg := mapSet st.reg m (s.map (fireSlot m)),
         trace := st.trace ++ (setEmits s).map (fun u => (u, args)) }, Except.ok true) := by
  have hgo := sendGo_fire isAlive m args s [] st (by simpa using hok) (by simpa using hnd)
    (by simpa using hget)
  simp only [List.nil_append, List.length_nil] at hgo
  unfold Tx.send
  rw [hget]
  simp only [if_pos hsz, hgo]

/-- The `for` loop of `Tx.send` run over a pure prefix followed by a throwing
listener: the prefix fires in order, the throw aborts the loop with the
registry untouched. -/
theorem sendGo_throw (isAlive : Nat → Bool) (m : Msg) (args : Args) (l : LId) (e : Nat)
    (B : SetData) :
    ∀ (A2 pre : SetData) (k : Nat) (st : St),
      (∀ sl ∈ A2, slotPure sl = true) →
      mapGet st.reg m = some (pre ++ A2 ++ some (l, Body.throwE e) :: B) →
      sendGo isAlive m args (A2.length + k + 1) pre.length st =
        ({ st with trace := st.trace ++ (setEmits A2).map (fun u => (u, args)) }, some e) := by
  intro A2
  induction A2 with
  | nil =>
      intro pre k st hA hget
      have hfetch : slotAt ((mapGet st.reg m).getD []) pre.length
          = some (l, Body.throwE e) := by
        rw [hget]
        have h := slotAt_append_length pre (some (l, Body.throwE e)) B
        simpa using h
      simp only [List.length_nil, Nat.zero_add]
      simp only [sendGo, hfetch, invoke]
      simp [setEmits]
  | cons sl A2' ih =>
      intro pre k st hA hget
      have hget' : mapGet st.reg m
          = some ((pre ++ [sl]) ++ A2' ++ some (l, Body.throwE e) :: B) := by
        simpa [List.append_assoc] using hget
      have hfetch : slotAt ((mapGet st.reg m).getD []) pre.length = sl := by
        rw [hget]
        have h := slotAt_append_length pre sl (A2' ++ some (l, Body.throwE e) :: B)
        simpa using h
      have hcomm : A2'.length + 1 + k = A2'.length + k + 1 := Nat.add_right_comm _ _ _
      cases sl with
      | none =>
          have ih' := ih (pre ++ [none]) k st
            (fun x hx => hA x (by simp [hx])) hget'
          simp only [List.length_append, List.length_cons, List.length_nil] at ih'
          simp only [List.length_cons]
          simp only [sendGo, hfetch]
          rw [hcomm, ih']
          simp [setEmits, slotEmits]
      | some p =>
          have hp : pureB p.2 = true := by
            have h := hA (some p) (by simp)
            simpa [slotPure] using h
          have hstep := invoke_pure isAlive args p.2 st hp
          have ih' := ih (pre ++ [some p]) k
            { st with trace := st.trace ++ (emitsOf p.2).map (fun u => (u, args)) }
            (fun x hx => hA x (by simp [hx])) hget'
          simp only [List.length_append, List.length_cons, List.length_nil] at ih'
          simp only [List.length_cons]
          simp only [sendGo, hfetch, hstep]
          rw [hcomm, ih']
          simp [setEmits, slotEmits, List.append_assoc]

/-- `Tx.send` on a set consisting of a purely observational prefix, a throwing
listener, and an arbitrary suffix: the prefix fires in order, the exception
then propagates to the caller of `send` and the suffix never runs; the
registry is untouched. -/
theorem send_throw_at (isAlive : Nat → Bool) (st : St) (m : Msg) (args : Args)
    (A : SetData) (l : LId) (e : Nat) (B : SetData)
    (hget : mapGet st.reg m = some (A ++ some (l, Body.throwE e) :: B))
    (hA : ∀ sl ∈ A, slotPure sl = true) :
    Tx.send isAlive st m args =
      ({ st with trace := st.trace ++ (setEmits A).map (fun u => (u, args)) },
       Except.error e) := by
  have hgo := sendGo_throw isAlive m args l e B A [] B.length st hA (by simpa using hget)
  simp only [List.length_nil] at hgo
  have hlen : (A ++ some (l, Body.throwE e) :: B).length = A.length + B.length + 1 := by
    simp [List.length_append, List.length_cons]
    omega
  unfold Tx.send
  rw [hget]
  simp only [if_pos (setSize_append_some_pos A (l, Body.throwE e) B), hlen, hgo]

/-! ## Claims -/

/-- Claim C1: for every message and argument list, `Tx.send` returns `false`
with no registry mutation and no listener invocation when the registry has no
entry for the message or an empty listener set; otherwise — here for sets of
ordinary, purely observational listeners, with the `Set` invariant of
pairwise-distinct references — it invokes every listener currently registered
under the message exactly once, in order, passing the arguments positionally,
and returns `true`. -/
theorem send_absent_or_empty_false_pure_each_once
    (isAlive : Nat → Bool) (st : St) (m : Msg) (args : Args) :
    (mapGet st.reg m = none → Tx.send isAlive st m args = (st, Except.ok false)) ∧
    (∀ s, mapGet st.reg m = some s → setSize s = 0 →
      Tx.send isAlive st m args = (st, Except.ok false)) ∧
    (∀ s, mapGet st.reg m = some s → 0 < setSize s →
      (∀ sl ∈ s, slotPure sl = true) →
      (liveLids s).Nodup →
      Tx.send isAlive st m args =
        ({ reg := st.reg,
           trace := st.trace ++ (setEmits s).map (fun u => (u, args)) },
         Except.ok true)) := by
  refine ⟨?_, ?_, ?_⟩
  · intro h
    simp [Tx.send, h]
  · intro s hs h0
    unfold Tx.send
    rw [hs]
    simp [h0]
  · intro s hs hpos hp hnd
    have hok : ∀ sl ∈ s, slotOkB m sl = true := fun sl hsl =>
      slotOkB_of_slotPure (hp sl hsl)
    have h := send_fire_aux isAlive st m args s hs hok hnd hpos
    rw [h, map_fireSlot_of_slotPure hp, mapSet_eq_of_get hs]

/-- Concrete instance of the claim-C1 theorem: one pure listener, one send,
one delivery. -/
theorem send_absent_or_empty_false_pure_each_once_witness :
    Tx.send (fun _ => true) ⟨[(0, [some (1, Body.emit 4 Body.done)])], []⟩ 0 [9]
      = (⟨[(0, [some (1, Body.emit 4 Body.done)])], [(4, [9])]⟩, Except.ok true) := by
  have h := (send_absent_or_empty_false_pure_each_once (fun _ => true)
      ⟨[(0, [some (1, Body.emit 4 Body.done)])], []⟩ 0 [9]).2.2
      [some (1, Body.emit 4 Body.done)] rfl (by decide) (by decide) (by decide)
  exact h.trans (by decide)

/-- Claim C2: after `rx.once(m, L)` on a message with no current entry, the
first `send(m, a)` delivers to `L` exactly once with `a` and tombstones the
trampoline's slot (the trampoline body runs `self.off(msg, f)` first, then
`listener(...args)` — see `Rx.once`), and the following `send(m, b)` invokes
nothing, records nothing, and returns `false`; `L` is never called with `b`. -/
theorem once_fires_exactly_once
    (isAlive : Nat → Bool) (st : St) (m : Msg) (l u fid : Nat) (a b : Args)
    (hm : mapGet st.reg m = none) :
    Tx.send isAlive ((Rx.once st m (l, Body.emit u Body.done) fid).1) m a
      = ({ reg := mapSet st.reg m [none], trace := st.trace ++ [(u, a)] }, Except.ok true) ∧
    Tx.send isAlive { reg := mapSet st.reg m [none], trace := st.trace ++ [(u, a)] } m b
      = ({ reg := mapSet st.reg m [none], trace := st.trace ++ [(u, a)] },
         Except.ok false) := by
  have h1 : (Rx.once st m (l, Body.emit u Body.done) fid).1
      = { st with reg := (mapSet st.reg m
            [some (fid, Body.offAct m fid (Body.emit u Body.done))]) } := by
    simp [Rx.once, Rx.on, hm]
  constructor
  · rw [h1]
    have h := send_fire_aux isAlive
      { st with reg := (mapSet st.reg m
          [some (fid, Body.offAct m fid (Body.emit u Body.done))]) } m a
      [some (fid, Body.offAct m fid (Body.emit u Body.done))]
      (mapGet_mapSet_self _ _ _) (by simp [slotOkB, pureB]) (by simp) (by simp [setSize])
    rw [h]
    simp [setEmits, slotEmits, emitsOf]
  · have hget2 : mapGet (mapSet st.reg m [none]) m = some [none] := mapGet_mapSet_self _ _ _
    unfold Tx.send
    rw [hget2]
    simp [setSize]

/-- Concrete instance of the claim-C2 theorem. -/
theorem once_fires_exactly_once_witness :
    Tx.send (fun _ => true) ((Rx.once ⟨[], []⟩ 0 (1, Body.emit 2 Body.done) 3).1) 0 [4]
      = (⟨[(0, [none])], [(2, [4])]⟩, Except.ok true) ∧
    Tx.send (fun _ => true) ⟨[(0, [none])], [(2, [4])]⟩ 0 [5]
      = (⟨[(0, [none])], [(2, [4])]⟩, Except.ok false) := by
  have h := once_fires_exactly_once (fun _ => true) ⟨[], []⟩ 0 1 2 3 [4] [5] rfl
  exact ⟨h.1.trans (by decide), h.2.trans (by decide)⟩

/-- Claim C3 counterexample: register one listener for message `0`, then
remove it with `rx.off`.  The removal empties the set, yet the registry keeps
the entry (`off` only calls `Set.delete`, never `Map.delete`), so
`Channel.messages` still lists `0` although it has no live listener —
refuting both the non-empty-set invariant and the `messages` guarantee. -/
theorem off_keeps_empty_entry_cex :
    (Rx.off ((Rx.on ⟨[], []⟩ 0 (1, Body.emit 2 Body.done)).1) 0 1).2 = true ∧
    Channel.messages ((Rx.off ((Rx.on ⟨[], []⟩ 0 (1, Body.emit 2 Body.done)).1) 0 1).1)
      = [0] ∧
    mapGet ((Rx.off ((Rx.on ⟨[], []⟩ 0 (1, Body.emit 2 Body.done)).1) 0 1).1).reg 0
      = some [none] := by decide

/-- Claim C3 amended: `Rx.off` removes only the listener and never the message
entry, even when it empties the set; consequently `Channel.messages` is
invariant under `off` and may list identifiers with no live listener (only
`off_all` and `clear` remove entries). -/
theorem off_preserves_messages (st : St) (m : Msg) (l : LId) :
    Channel.messages ((Rx.off st m l).1) = Channel.messages st := by
  cases hm : mapGet st.reg m with
  | none => simp [Rx.off, hm]
  | some s =>
      simp [Rx.off, hm, Channel.messages, mapKeys_mapSet_of_get (setOff s l) hm]

/-- Claim C4 (code bug): `rx.once` returns `this.on(msg, f)`, and `on` returns
its argument, so the caller receives the internal trampoline `f` — not the
original listener, contradicting both the claim and the method's own doc
comment (`Returns the provided listener`); consequently `rx.off(m, v)` with
the returned value `v` does remove the trampoline. -/
theorem once_returns_trampoline_bug :
    (Rx.once ⟨[], []⟩ 0 (5, Body.emit 9 Body.done) 7).2
      = (7, Body.offAct 0 7 (Body.emit 9 Body.done)) ∧
    (Rx.once ⟨[], []⟩ 0 (5, Body.emit 9 Body.done) 7).2 ≠ (5, Body.emit 9 Body.done) ∧
    (Rx.off ((Rx.once ⟨[], []⟩ 0 (5, Body.emit 9 Body.done) 7).1) 0
        ((Rx.once ⟨[], []⟩ 0 (5, Body.emit 9 Body.done) 7).2).1).2 = true ∧
    mapGet ((Rx.off ((Rx.once ⟨[], []⟩ 0 (5, Body.emit 9 Body.done) 7).1) 0
        ((Rx.once ⟨[], []⟩ 0 (5, Body.emit 9 Body.done) 7).2).1).1).reg 0
      = some [none] := by decide

/-- Claim C5 counterexample: `Tx.send` iterates the live set, not a snapshot.
Listener `0` performs a nested `off` of listener `1`; although listener `1`
was in the set when the send began, its slot is tombstoned before the
iteration reaches it, so it is never invoked (uid `11` never appears in the
trace) — refuting the claimed snapshot semantics. -/
theorem send_nested_off_skips_cex :
    Tx.send (fun _ => true)
        ⟨[(5, [some (0, Body.offAct 5 1 (Body.emit 10 Body.done)),
               some (1, Body.emit 11 Body.done)])], []⟩ 5 [3]
      = (⟨[(5, [some (0, Body.offAct 5 1 (Body.emit 10 Body.done)), none])],
          [(10, [3])]⟩, Except.ok true) ∧
    (11, [3]) ∉ (Tx.send (fun _ => true)
        ⟨[(5, [some (0, Body.offAct 5 1 (Body.emit 10 Body.done)),
               some (1, Body.emit 11 Body.done)])], []⟩ 5 [3]).1.trace := by decide

/-- Claim C5 amended: `Tx.send` iterates the live set in insertion order. The
self-removal performed by a one-shot trampoline during the send neither
crashes the iteration nor skips nor double-invokes any other listener: every
slot of the set at the start of the call fires exactly once, in order, and
the send returns `true`.  A nested `off` of a listener not yet reached,
however, takes effect for the in-progress send and that listener is skipped
(see the counterexample). -/
theorem send_live_iteration_selftramp_ok
    (isAlive : Nat → Bool) (st : St) (m : Msg) (args : Args) (s : SetData)
    (hget : mapGet st.reg m = some s)
    (hok : ∀ slot ∈ s, slotOkB m slot = true)
    (hnd : (liveLids s).Nodup)
    (hsz : 0 < setSize s) :
    Tx.send isAlive st m args =
      ({ reg := mapSet st.reg m (s.map (fireSlot m)),
         trace := st.trace ++ (setEmits s).map (fun u => (u, args)) }, Except.ok true) :=
  send_fire_aux isAlive st m args s hget hok hnd hsz

/-- Concrete instance of the claim-C5 amended theorem: a pure listener and a
one-shot trampoline; both fire once, only the trampoline's slot is removed. -/
theorem send_live_iteration_selftramp_ok_witness :
    Tx.send (fun _ => true)
        ⟨[(0, [some (1, Body.emit 4 Body.done),
               some (2, Body.offAct 0 2 (Body.emit 5 Body.done))])], []⟩ 0 [7]
      = (⟨[(0, [some (1, Body.emit 4 Body.done), none])], [(4, [7]), (5, [7])]⟩,
         Except.ok true) := by
  have h := send_live_iteration_selftramp_ok (fun _ => true)
      ⟨[(0, [some (1, Body.emit 4 Body.done),
             some (2, Body.offAct 0 2 (Body.emit 5 Body.done))])], []⟩ 0 [7]
      [some (1, Body.emit 4 Body.done), some (2, Body.offAct 0 2 (Body.emit 5 Body.done))]
      rfl (by decide) (by decide) (by decide)
  exact h.trans (by decide)

/-- Claim C6 (code bug): the current `rx.onweak` ends with `return listener;`,
handing back the listener object itself — a strong reference — and not the
`WeakRef` it created, contradicting the claim and the method's own doc
comment (`Returns a WeakRef of the provided listener`); the earlier variant
(`Rx.onweakV1`, still in dist) returned the `WeakRef`. -/
theorem onweak_returns_strong_listener_bug :
    (Rx.onweak ⟨[], []⟩ 0 (5, Body.emit 9 Body.done) 11 7).2
      = ORet.strongL (5, Body.emit 9 Body.done) ∧
    (Rx.onweak ⟨[], []⟩ 0 (5, Body.emit 9 Body.done) 11 7).2 ≠ ORet.weakRef 11 ∧
    (Rx.onweakV1 ⟨[], []⟩ 0 (5, Body.emit 9 Body.done) 11 7).2 = ORet.weakRef 11 := by
  decide

/-- Claim C7: registering the identical listener reference twice under the
same message is idempotent — the second `rx.on` leaves the registry state
unchanged (`Set` semantics), `rx.on` always returns the listener it was
given, and a subsequent `send` delivers to the listener exactly once, not
twice. -/
theorem on_idempotent_single_delivery
    (isAlive : Nat → Bool) (st : St) (m : Msg) (L : Listener) :
    (Rx.on ((Rx.on st m L).1) m L).1 = (Rx.on st m L).1 ∧
    (Rx.on st m L).2 = L ∧
    (∀ l u args, L = (l, Body.emit u Body.done) → mapGet st.reg m = none →
      Tx.send isAlive ((Rx.on ((Rx.on st m L).1) m L).1) m args
        = ({ reg := mapSet st.reg m [some L], trace := st.trace ++ [(u, args)] },
           Except.ok true)) := by
  have hidem : (Rx.on ((Rx.on st m L).1) m L).1 = (Rx.on st m L).1 := by
    cases hm : mapGet st.reg m with
    | none =>
        have h1 : (Rx.on st m L).1 = { st with reg := mapSet st.reg m [some L] } := by
          simp [Rx.on, hm]
        have hget1 : mapGet (mapSet st.reg m [some L]) m = some [some L] :=
          mapGet_mapSet_self _ _ _
        have hmem : setMem [some L] L.1 = true := by simp [setMem, lidIs]
        rw [h1]
        simp [Rx.on, hget1, setAdd_of_mem hmem, mapSet_eq_of_get hget1]
    | some s =>
        have h1 : (Rx.on st m L).1 = { st with reg := mapSet st.reg m (setAdd s L) } := by
          simp [Rx.on, hm]
        have hget1 : mapGet (mapSet st.reg m (setAdd s L)) m = some (setAdd s L) :=
          mapGet_mapSet_self _ _ _
        rw [h1]
        simp [Rx.on, hget1, setAdd_of_mem (setMem_setAdd s L), mapSet_eq_of_get hget1]
  refine ⟨hidem, ?_, ?_⟩
  · cases hm : mapGet st.reg m <;> simp [Rx.on, hm]
  · intro l u args hL hm
    subst hL
    have h1 : (Rx.on st m (l, Body.emit u Body.done)).1
        = { st with reg := (mapSet st.reg m [some (l, Body.emit u Body.done)]) } := by
      simp [Rx.on, hm]
    rw [hidem, h1]
    have h := send_fire_aux isAlive
      { st with reg := (mapSet st.reg m [some (l, Body.emit u Body.done)]) } m args
      [some (l, Body.emit u Body.done)]
      (mapGet_mapSet_self _ _ _) (by simp [slotOkB, pureB]) (by simp) (by simp [setSize])
    rw [h]
    simp [setEmits, slotEmits, emitsOf, fireSlot]

/-- Concrete instance of the claim-C7 theorem. -/
theorem on_idempotent_single_delivery_witness :
    (Rx.on ((Rx.on ⟨[], []⟩ 0 (1, Body.emit 2 Body.done)).1) 0 (1, Body.emit 2 Body.done)).1
      = (Rx.on ⟨[], []⟩ 0 (1, Body.emit 2 Body.done)).1 ∧
    Tx.send (fun _ => true)
        ((Rx.on ((Rx.on ⟨[], []⟩ 0 (1, Body.emit 2 Body.done)).1) 0
          (1, Body.emit 2 Body.done)).1) 0 [3]
      = (⟨[(0, [some (1, Body.emit 2 Body.done)])], [(2, [3])]⟩, Except.ok true) := by
  have h := on_idempotent_single_delivery (fun _ => true) ⟨[], []⟩ 0 (1, Body.emit 2 Body.done)
  exact ⟨h.1, (h.2.2 1 2 [3] rfl rfl).trans (by decide)⟩

/-- Claim C8 counterexample: with a single listener that throws `7`, the
deferred body of `send_async` throws before `resolve` runs, so the returned
promise is left forever pending — it is not rejected with the exception as
the claim states. -/
theorem send_async_left_pending_cex :
    (Tx.send_async (fun _ => true) ⟨[(0, [some (1, Body.throwE 7)])], []⟩ 0 []).2
      = FOutcome.pending ∧
    (Tx.send_async (fun _ => true) ⟨[(0, [some (1, Body.throwE 7)])], []⟩ 0 []).2
      ≠ FOutcome.rejected 7 := by decide

/-- Claim C8 amended: when a listener raises during the deferred body of
`send_async`, the listeners earlier in iteration order have already run, the
exception escapes to the host scheduler — `resolve` is never invoked — and
the returned future is left forever pending (not rejected); for synchronous
`Tx.send` the same exception propagates to the caller of `send`. -/
theorem listener_throw_sync_error_async_pending
    (isAlive : Nat → Bool) (st : St) (m : Msg) (args : Args)
    (A : SetData) (l : LId) (e : Nat) (B : SetData)
    (hget : mapGet st.reg m = some (A ++ some (l, Body.throwE e) :: B))
    (hA : ∀ sl ∈ A, slotPure sl = true) :
    Tx.send isAlive st m args =
      ({ st with trace := st.trace ++ (setEmits A).map (fun u => (u, args)) },
       Except.error e) ∧
    Tx.send_async isAlive st m args =
      ({ st with trace := st.trace ++ (setEmits A).map (fun u => (u, args)) },
       FOutcome.pending) := by
  have h := send_throw_at isAlive st m args A l e B hget hA
  exact ⟨h, by simp [Tx.send_async, h]⟩

/-- Concrete instance of the claim-C8 amended theorem: listener `4` runs
first, listener at slot 1 throws `7`, listener `5` never runs; the sync send
propagates the exception and the async future stays pending. -/
theorem listener_throw_sync_error_async_pending_witness :
    Tx.send (fun _ => true)
        ⟨[(0, [some (1, Body.emit 4 Body.done), some (2, Body.throwE 7),
               some (3, Body.emit 5 Body.done)])], []⟩ 0 [9]
      = (⟨[(0, [some (1, Body.emit 4 Body.done), some (2, Body.throwE 7),
               some (3, Body.emit 5 Body.done)])], [(4, [9])]⟩, Except.error 7) ∧
    Tx.send_async (fun _ => true)
        ⟨[(0, [some (1, Body.emit 4 Body.done), some (2, Body.throwE 7),
               some (3, Body.emit 5 Body.done)])], []⟩ 0 [9]
      = (⟨[(0, [some (1, Body.emit 4 Body.done), some (2, Body.throwE 7),
               some (3, Body.emit 5 Body.done)])], [(4, [9])]⟩, FOutcome.pending) := by
  have h := listener_throw_sync_error_async_pending (fun _ => true)
      ⟨[(0, [some (1, Body.emit 4 Body.done), some (2, Body.throwE 7),
             some (3, Body.emit 5 Body.done)])], []⟩ 0 [9]
      [some (1, Body.emit 4 Body.done)] 2 7 [some (3, Body.emit 5 Body.done)]
      rfl (by decide)
  exact ⟨h.1.trans (by decide), h.2.trans (by decide)⟩

/-- Claim C9 counterexample: `Channel.get` on a host with no association
dereferences `undefined` (the `!` assertion) and throws a `TypeError` instead
of reporting absence as a normal result; and `Channel.add` on a host that
already has an association unconditionally replaces it with a fresh empty
channel, discarding the existing registry — it is not guarded by `has`. -/
theorem channel_get_raises_add_discards_cex :
    Channel.get ([] : ChTable) 0 = Except.error () ∧
    Channel.add [(0, [(1, [some (2, Body.done)])])] 0 = [(0, ([] : Reg))] ∧
    mapGet (Channel.add [(0, [(1, [some (2, Body.done)])])] 0) 0
      ≠ some [(1, [some (2, Body.done)])] :=
  ⟨by decide, by decide, by decide⟩

/-- Claim C9 amended: `Channel.get` on an unassociated host raises (a
`TypeError` from the `!` non-null assertion, modelled as `Except.error ()`),
and `Channel.add` unconditionally associates a fresh empty channel with the
host — even replacing an existing association — with no `has` guard. -/
theorem channel_get_absent_errors_add_overwrites (t : ChTable) (h : Host)
    (hh : Channel.has t h = false) :
    Channel.get t h = Except.error () ∧ mapGet (Channel.add t h) h = some ([] : Reg) := by
  have hnone : mapGet t h = none := by
    cases hm : mapGet t h with
    | none => rfl
    | some r => simp [Channel.has, hm] at hh
  exact ⟨by simp [Channel.get, hnone], by simp [Channel.add]⟩

/-- Concrete instance of the claim-C9 amended theorem. -/
theorem channel_get_absent_errors_add_overwrites_witness :
    Channel.get ([] : ChTable) 5 = Except.error () ∧
    mapGet (Channel.add ([] : ChTable) 5) 5 = some ([] : Reg) :=
  channel_get_absent_errors_add_overwrites [] 5 (by decide)

/-- Claim C10: two `rx.once` registrations with the identical listener
reference create two distinct trampoline closures, which the `Set` does not
deduplicate (they are distinct references), so a single `send` invokes the
wrapped listener twice, once per trampoline — unlike duplicate `rx.on`
registrations. -/
theorem once_twice_double_delivery
    (isAlive : Nat → Bool) (st : St) (m : Msg) (l u f1 f2 : Nat) (args : Args)
    (hm : mapGet st.reg m = none) (hf : f1 ≠ f2) :
    mapGet ((Rx.once ((Rx.once st m (l, Body.emit u Body.done) f1).1) m
        (l, Body.emit u Body.done) f2).1).reg m
      = some [some (f1, Body.offAct m f1 (Body.emit u Body.done)),
              some (f2, Body.offAct m f2 (Body.emit u Body.done))] ∧
    Tx.send isAlive ((Rx.once ((Rx.once st m (l, Body.emit u Body.done) f1).1) m
        (l, Body.emit u Body.done) f2).1) m args
      = ({ reg := mapSet st.reg m [none, none],
           trace := st.trace ++ [(u, args), (u, args)] }, Except.ok true) := by
  have h1 : (Rx.once st m (l, Body.emit u Body.done) f1).1
      = { st with reg := (mapSet st.reg m
            [some (f1, Body.offAct m f1 (Body.emit u Body.done))]) } := by
    simp [Rx.once, Rx.on, hm]
  have hget1 : mapGet (mapSet st.reg m
        [some (f1, Body.offAct m f1 (Body.emit u Body.done))]) m
      = some [some (f1, Body.offAct m f1 (Body.emit u Body.done))] :=
    mapGet_mapSet_self _ _ _
  have hmem : setMem [some (f1, Body.offAct m f1 (Body.emit u Body.done))] f2 = false := by
    simp [setMem, lidIs, hf]
  have h2 : (Rx.once ((Rx.once st m (l, Body.emit u Body.done) f1).1) m
        (l, Body.emit u Body.done) f2).1
      = { st with reg := (mapSet st.reg m
            [some (f1, Body.offAct m f1 (Body.emit u Body.done)),
             some (f2, Body.offAct m f2 (Body.emit u Body.done))]) } := by
    rw [h1]
    simp [Rx.once, Rx.on, hget1, setAdd, hmem]
  refine ⟨?_, ?_⟩
  · rw [h2]
    exact mapGet_mapSet_self _ _ _
  · rw [h2]
    have h := send_fire_aux isAlive
      { st with reg := (mapSet st.reg m
          [some (f1, Body.offAct m f1 (Body.emit u Body.done)),
           some (f2, Body.offAct m f2 (Body.emit u Body.done))]) } m args
      [some (f1, Body.offAct m f1 (Body.emit u Body.done)),
       some (f2, Body.offAct m f2 (Body.emit u Body.done))]
      (mapGet_mapSet_self _ _ _) (by simp [slotOkB, pureB]) (by simp [hf])
      (by simp [setSize])
    rw [h]
    simp [setEmits, slotEmits, emitsOf]

/-- Concrete instance of the claim-C10 theorem: `once` twice with the same
listener, one send, two deliveries. -/
theorem once_twice_double_delivery_witness :
    Tx.send (fun _ => true) ((Rx.once ((Rx.once ⟨[], []⟩ 0 (1, Body.emit 2 Body.done) 3).1) 0
        (1, Body.emit 2 Body.done) 4).1) 0 [6]
      = (⟨[(0, [none, none])], [(2, [6]), (2, [6])]⟩, Except.ok true) := by
  have h := once_twice_double_delivery (fun _ => true) ⟨[], []⟩ 0 1 2 3 4 [6] rfl
    (by decide)
  exact h.2.trans (by decide)

end ChannelJS
